import Mathlib

/-!
Shallow embedding of `src/main.rs` of the `this-week-in-open-source`
report generator, together with proofs of the specification claims.

The pure core of the program is embedded function by function:
`format_item`, `format_label`, `format_items`, `extract_definitions`,
`match_items_with_labels`, the per-issue normalization performed inside
`get_user_items`, and the two document-assembly paths of `main` (the
config-loaded path and the flat fallback path).  I/O (file writing,
HTTP pagination, environment lookup) is outside the embedding; the
document text that `main` writes is modelled as a pure function of the
configuration and of the flat list of fetched items.

Rust strings are compared byte-lexicographically by `Ord`; since UTF-8
byte order coincides with code-point order, this is embedded by the
computable comparator `ltCharList` on `List Char`, which is proved
equivalent to Mathlib's lexicographic order on `String` so that the
theorems can speak in terms of the standard `≤`.  Rust's stable
`sort_by_key` / `sort` are embedded as `List.insertionSort`, which is
the same stable sorting specification.  The `HashSet` dedup in
`extract_definitions` is embedded by `List.dedup`; the set contents are
identical and the subsequent sort makes the iteration order of the hash
set unobservable, so the embedding denotes the unique output the Rust
code can produce.
-/

/-- The `Item` struct of `main.rs` (one normalized pull request). -/
structure Item where
  issue_number : String
  issue_title : String
  issue_url : String
  repository_name : String
  repository_url : String
  user_login : String
  user_url : String
deriving DecidableEq, Inhabited

/-- The `RepoConfig` struct of `main.rs` (one label group: name, repo
membership list, accumulated items; `items` defaults to empty when
deserialized). -/
structure RepoConfig where
  name : String
  repos : List String
  items : List Item
deriving DecidableEq, Inhabited

/-- The `FileConfig` struct of `main.rs` (the deserialized config file). -/
structure FileConfig where
  labels : List RepoConfig
  header : List String
  users : List String
  exclude : List String
deriving DecidableEq, Inhabited

/-- The `BREAK_LINE` constant of `main.rs`: a raw string consisting of
exactly two newline characters. -/
def BREAK_LINE : String := "\n\n"

/-- Computable lexicographic strict order on `List Char`, embedding the
byte-lexicographic `Ord` that Rust uses on `String` (UTF-8 byte order
equals code-point order). -/
def ltCharList : List Char → List Char → Bool
  | _, [] => false
  | [], _ :: _ => true
  | a :: as, b :: bs =>
    if a < b then true
    else if b < a then false
    else ltCharList as bs

/-- Relation `a ≤ b` on strings as Rust's `Ord` decides it, as a
computable relation (total preorder used by the embedded sorts). -/
def leStr : String → String → Prop := fun a b => !ltCharList b.data a.data

instance : DecidableRel leStr := fun _ _ => instDecidableEqBool _ _

/-- Rust `Vec::sort` on strings: stable sort in ascending `Ord` order. -/
def sortStrings (l : List String) : List String :=
  l.insertionSort leStr

/-- Key order used by `items.sort_by_key(|item| item.repository_name.clone())`. -/
def leByRepoName : Item → Item → Prop :=
  fun a b => !ltCharList b.repository_name.data a.repository_name.data

instance : DecidableRel leByRepoName := fun _ _ => instDecidableEqBool _ _

/-- The `items.sort_by_key(|item| item.repository_name.clone())` call in `main`. -/
def sortItemsByRepoName (items : List Item) : List Item :=
  items.insertionSort leByRepoName

/-- Key order used by `repos.sort_by_key(|label| label.name.clone())`. -/
def leByName : RepoConfig → RepoConfig → Prop :=
  fun a b => !ltCharList b.name.data a.name.data

instance : DecidableRel leByName := fun _ _ => instDecidableEqBool _ _

/-- The `repos.sort_by_key(|label| label.name.clone())` call in `main`'s Ok path. -/
def sortLabelsByName (labels : List RepoConfig) : List RepoConfig :=
  labels.insertionSort leByName

/-- The `format_item` function of `main.rs`:
`format!("- [{}] [#{}]({}) {} ([@{}])", ...)`. -/
def format_item (user_login : String) (item : Item) : String :=
  "- [" ++ item.repository_name ++ "] [#" ++ item.issue_number ++ "](" ++
    item.issue_url ++ ") " ++ item.issue_title ++ " ([@" ++ user_login ++ "])"

/-- The `format_label` function of `main.rs`: `format!("## {}", repo.name)`. -/
def format_label (repo : RepoConfig) : String := "## " ++ repo.name

/-- The `format_items` function of `main.rs`. -/
def format_items (items : List Item) : List String :=
  items.map (fun item => format_item item.user_login item)

/-- The user reference line inserted by `extract_definitions`:
`format!("[@{}]: {}", item.user_login, item.user_url)`. -/
def userLine (item : Item) : String :=
  "[@" ++ item.user_login ++ "]: " ++ item.user_url

/-- The repository reference line inserted by `extract_definitions`:
`format!("[{}]: {}", item.repository_name, item.repository_url)`. -/
def repoLine (item : Item) : String :=
  "[" ++ item.repository_name ++ "]: " ++ item.repository_url

/-- The `extract_definitions` function of `main.rs`: insert the user and
repository reference lines of every item into two hash sets, turn each
set into a vector, sort both, and append the repository block after the
user block.  The hash sets are embedded by `List.dedup` (same contents;
the sort makes the hash iteration order unobservable). -/
def extract_definitions (items : List Item) : List String :=
  let unique_users := (items.map userLine).dedup
  let unique_repositories := (items.map repoLine).dedup
  sortStrings unique_users ++ sortStrings unique_repositories

/-- One step of the `repos.into_iter().find(...)` + `label.items.push(...)`
body of `match_items_with_labels`: push the item onto the first label
group whose `repos` list contains the item's `repository_name`, returning
`none` when no group matches. -/
def pushToFirstMatch (item : Item) : List RepoConfig → Option (List RepoConfig)
  | [] => none
  | label :: rest =>
    if label.repos.contains item.repository_name then
      some ({ label with items := label.items ++ [item] } :: rest)
    else
      match pushToFirstMatch item rest with
      | some rest2 => some (label :: rest2)
      | none => none

/-- The `for item in items` loop of `match_items_with_labels`, with the
mutable `repos` and `unknown_items` vectors passed explicitly. -/
def matchLoop : List RepoConfig → List Item → List Item → List RepoConfig × List Item
  | repos, unknown_items, [] => (repos, unknown_items)
  | repos, unknown_items, item :: rest =>
    match pushToFirstMatch item repos with
    | some repos2 => matchLoop repos2 unknown_items rest
    | none => matchLoop repos (unknown_items ++ [item]) rest

/-- The `match_items_with_labels` function of `main.rs`. -/
def match_items_with_labels (repos : List RepoConfig) (items : List Item) :
    List RepoConfig × List Item :=
  matchLoop repos [] items

/-- The group-rendering loop of `main`'s Ok path: iterate over the label
groups that have at least one item, pushing a blank separator line before
every group except the first (`if i > 0`), then the heading, a blank
line, and the formatted items.  The `Bool` argument tracks whether the
current group is the first rendered one (`i == 0`). -/
def contentGroups : Bool → List RepoConfig → List String
  | _, [] => []
  | isFirst, label :: rest =>
    (if isFirst then [] else [""]) ++ [format_label label, ""] ++
      format_items label.items ++ contentGroups false rest

/-- The `if unknown_items.len() > 0` block of `main`'s Ok path. -/
def unknownBlock (unknown_items : List Item) : List String :=
  if 0 < unknown_items.length then
    [""] ++ ["## Unknown", ""] ++ format_items unknown_items
  else []

/-- The full `content` vector built by `main`'s Ok path. -/
def renderContent (labels : List RepoConfig) (unknown_items : List Item) :
    List String :=
  contentGroups true (labels.filter (fun l => 0 < l.items.length)) ++
    unknownBlock unknown_items

/-- The filtered and sorted item list of `main`'s Ok path: drop items
whose `repository_name` is in `config.exclude`, then sort by
`repository_name`. -/
def pipelineItems (config : FileConfig) (fetched : List Item) : List Item :=
  sortItemsByRepoName
    (fetched.filter (fun item => !config.exclude.contains item.repository_name))

/-- The populated label groups returned by `match_items_with_labels` in
`main`'s Ok path (the configured labels sorted by name, then matched). -/
def pipelineGroups (config : FileConfig) (fetched : List Item) : List RepoConfig :=
  (match_items_with_labels (sortLabelsByName config.labels)
    (pipelineItems config fetched)).1

/-- The unknown-item collection returned by `match_items_with_labels` in
`main`'s Ok path. -/
def pipelineUnknown (config : FileConfig) (fetched : List Item) : List Item :=
  (match_items_with_labels (sortLabelsByName config.labels)
    (pipelineItems config fetched)).2

/-- The label groups that actually render (the ones with at least one
item), in the order the rendering loop visits them. -/
def renderedGroups (config : FileConfig) (fetched : List Item) : List RepoConfig :=
  (pipelineGroups config fetched).filter (fun l => 0 < l.items.length)

/-- The document text written by `main`'s Ok (config loaded) path: the
four `file.write` calls concatenated. -/
def mainOkDocument (config : FileConfig) (fetched : List Item) : String :=
  let items := pipelineItems config fetched
  let markdown_definitions := extract_definitions items
  let labels := pipelineGroups config fetched
  let unknown_items := pipelineUnknown config fetched
  let content := renderContent labels unknown_items
  String.intercalate "\n" config.header ++ String.intercalate "\n" content ++
    BREAK_LINE ++ String.intercalate "\n" markdown_definitions

/-- The document text written by `main`'s Err (config loading failed)
path: sorted items formatted flat, break, reference definitions. -/
def mainErrDocument (fetched : List Item) : String :=
  let items := sortItemsByRepoName fetched
  let markdown_definitions := extract_definitions items
  let content := format_items items
  String.intercalate "\n" content ++ BREAK_LINE ++
    String.intercalate "\n" markdown_definitions

/-- Rust `str::split("/").collect::<Vec<_>>()` on a string: split at
every `'/'`, keeping empty parts (splitting `""` yields one empty part),
which is exactly `List.splitOn` on the character list. -/
def splitSlash (s : String) : List String :=
  (s.data.splitOn '/').map String.mk

/-- Rust `Vec::join("/")` on a vector of strings. -/
def joinSlash : List String → String
  | [] => ""
  | [s] => s
  | s :: rest => s ++ "/" ++ joinSlash rest

/-- Serialization of a URL path: every segment preceded by a slash. -/
def slashSegments : List String → String
  | [] => ""
  | s :: rest => "/" ++ s ++ slashSegments rest

/-- Model of the `html_url` of a search result: an https URL given by
its host and its path segments.  `render` is `Url::to_string()`,
`pathString` is `Url::path()`. -/
structure PullRequestUrl where
  host : String
  pathSegments : List String
deriving DecidableEq, Inhabited

/-- Serialization `Url::to_string()` of the modelled URL. -/
def PullRequestUrl.render (u : PullRequestUrl) : String :=
  "https://" ++ u.host ++ slashSegments u.pathSegments

/-- The path component `Url::path()` of the modelled URL. -/
def PullRequestUrl.pathString (u : PullRequestUrl) : String :=
  slashSegments u.pathSegments

/-- The fields of one search-result record that the body of the
`get_user_items` loop reads. -/
structure Issue where
  html_url : PullRequestUrl
  number : Nat
  title : String
  user_login : String
  user_html_url : String
deriving DecidableEq, Inhabited

/-- The body of the `for issue in &page` loop of `get_user_items`: split
the full URL on `/`, pop the id and the `pull` segment for
`repository_url`, and take the first two non-empty path segments for
`repository_name`. -/
def itemFromIssue (issue : Issue) : Item :=
  let url := issue.html_url.render
  let repository_url_parts := splitSlash url
  let path_parts :=
    (splitSlash issue.html_url.pathString).filter (fun x => 0 < x.length)
  { user_login := issue.user_login
    user_url := issue.user_html_url
    issue_number := toString issue.number
    issue_title := issue.title
    issue_url := url
    repository_name := path_parts[0]! ++ "/" ++ path_parts[1]!
    repository_url := joinSlash repository_url_parts.dropLast.dropLast }

/-- The `get_user_items` function of `main.rs`, abstracted over the
(sequentially paginated) issues the remote API returns: every issue is
normalized into one `Item`, in order. -/
def get_user_items (issues : List Issue) : List Item :=
  issues.map itemFromIssue

/-- Spec §4.4 step 2, one section: the heading line, a blank line, then
one bullet line per item of the group. -/
def groupSection (label : RepoConfig) : List String :=
  [format_label label, ""] ++ format_items label.items

/-- Spec §4.4 step 2 as written: the sections of the rendered groups
with a blank-line separator between consecutive sections. -/
def specSections (labels : List RepoConfig) : List String :=
  List.intercalate [""] (labels.map groupSection)

/-- Spec §4.4 step 3 as written: if the unknown collection is non-empty,
a blank-line separator, the heading `## Unknown`, a blank line, and one
bullet per unknown item. -/
def specUnknownSection (unknown_items : List Item) : List String :=
  if unknown_items = [] then []
  else [""] ++ ["## Unknown", ""] ++ format_items unknown_items

/-- Spec §4.4 as written, for the config-loaded path: header lines
joined by newline, then the group sections and the unknown section, then
the break sequence, then the reference definitions one per line. -/
def specOkDocument (config : FileConfig) (fetched : List Item) : String :=
  String.intercalate "\n" config.header ++
    String.intercalate "\n"
      (specSections (renderedGroups config fetched) ++
        specUnknownSection (pipelineUnknown config fetched)) ++
    BREAK_LINE ++
    String.intercalate "\n" (extract_definitions (pipelineItems config fetched))

/-- Spec §4.4 flat mode as written: only the bullet lines of all fetched
items sorted by repository name, then the break sequence, then the
reference definitions. -/
def specFlatDocument (fetched : List Item) : String :=
  String.intercalate "\n"
      ((sortItemsByRepoName fetched).map (fun item => format_item item.user_login item)) ++
    BREAK_LINE ++
    String.intercalate "\n" (extract_definitions (sortItemsByRepoName fetched))

/-- Spec §4.2 as written (first-match classification, order preserved):
each group receives, in input order, exactly the items whose
`repository_name` its membership list contains and that no earlier group
claimed. -/
def specAssign (items : List Item) : List RepoConfig → List RepoConfig
  | [] => []
  | label :: rest =>
    { label with
        items := label.items ++
          items.filter (fun item => label.repos.contains item.repository_name) } ::
      specAssign
        (items.filter (fun item => !label.repos.contains item.repository_name)) rest

/-- An item matches no label group at all. -/
def noMatch (repos : List RepoConfig) (item : Item) : Bool :=
  repos.all (fun label => !label.repos.contains item.repository_name)

/-- Spec §4.2 unknown collection as written: the items, in input order,
whose repository belongs to no group's membership list. -/
def specUnknown (items : List Item) (repos : List RepoConfig) : List Item :=
  items.filter (noMatch repos)

/-- Well-formedness of a modelled pull-request URL: the host and the
path segments contain no slash (true of any URL: `/` is the segment
separator), and at least two path segments are non-empty (true of any
GitHub pull-request URL `https://github.com/<owner>/<repo>/pull/<n>`;
with fewer, the Rust code would panic on `path_parts[1]` instead of
producing an `Item`). -/
def UrlWellFormed (u : PullRequestUrl) : Prop :=
  '/' ∉ u.host.data ∧ (∀ s ∈ u.pathSegments, '/' ∉ s.data) ∧
    2 ≤ (u.pathSegments.filter (fun s => s ≠ "")).length

instance (u : PullRequestUrl) : Decidable (UrlWellFormed u) := by
  unfold UrlWellFormed; infer_instance

/-! ## Concrete example data (used in counterexamples and witnesses) -/

/-- A configuration whose label sequence (B before A) is not in
alphabetical name order; both groups will receive one item. -/
def c1Config : FileConfig :=
  { labels :=
      [{ name := "B", repos := ["r/one"], items := [] },
       { name := "A", repos := ["r/two"], items := [] }],
    header := [], users := [], exclude := [] }

def c1Items : List Item :=
  [{ issue_number := "1", issue_title := "t1", issue_url := "u1",
     repository_name := "r/one", repository_url := "v1",
     user_login := "a", user_url := "w1" },
   { issue_number := "2", issue_title := "t2", issue_url := "u2",
     repository_name := "r/two", repository_url := "v2",
     user_login := "b", user_url := "w2" }]

/-- An item whose author `dup` has profile URL `w1`. -/
def c2ItemA : Item :=
  { issue_number := "1", issue_title := "t", issue_url := "u1",
    repository_name := "r/r", repository_url := "v",
    user_login := "dup", user_url := "w1" }

/-- An item by the same author `dup` but with a different profile URL. -/
def c2ItemB : Item :=
  { issue_number := "2", issue_title := "t", issue_url := "u2",
    repository_name := "r/r", repository_url := "v",
    user_login := "dup", user_url := "w2" }

def c4Repos : List RepoConfig :=
  [{ name := "Ember", repos := ["ember-engines/ember-engines"], items := [] }]

def c4Items : List Item :=
  [{ issue_number := "63", issue_title := "Update nan",
     issue_url := "https://github.com/atom/keyboard-layout/pull/63",
     repository_name := "atom/keyboard-layout",
     repository_url := "https://github.com/atom/keyboard-layout",
     user_login := "mansona", user_url := "https://github.com/mansona" },
   { issue_number := "798", issue_title := "Ember 4 compatibility",
     issue_url := "https://github.com/ember-engines/ember-engines/pull/798",
     repository_name := "ember-engines/ember-engines",
     repository_url := "https://github.com/ember-engines/ember-engines",
     user_login := "BobrImperator",
     user_url := "https://github.com/BobrImperator" }]

def c5Issue : Issue :=
  { html_url :=
      { host := "github.com",
        pathSegments := ["atom", "keyboard-layout", "pull", "63"] },
    number := 63, title := "Update nan", user_login := "mansona",
    user_html_url := "https://github.com/mansona" }

def c6Config : FileConfig :=
  { labels := [{ name := "G", repos := ["x/y"], items := [] }],
    header := [], users := [], exclude := ["x/y"] }

def c6Item : Item :=
  { issue_number := "9", issue_title := "s", issue_url := "u9",
    repository_name := "x/y", repository_url := "v9",
    user_login := "c", user_url := "w9" }

def c6Fetched : List Item :=
  [c6Item,
   { issue_number := "3", issue_title := "t3", issue_url := "u3",
     repository_name := "p/q", repository_url := "v3",
     user_login := "d", user_url := "w3" }]

/-! ## Helper lemmas: the string order bridge -/

/-- The computable comparator agrees with Mathlib's lexicographic strict
order on `List Char`. -/
theorem ltCharList_iff : ∀ x y : List Char, ltCharList x y = true ↔ x < y := by
  intro x
  induction x with
  | nil =>
    intro y
    cases y with
    | nil =>
      constructor
      · intro h; simp [ltCharList] at h
      · intro h; exact absurd h (List.Lex.not_nil_right _ _)
    | cons b bs =>
      constructor
      · intro _; exact List.Lex.nil
      · intro _; rfl
  | cons a as ih =>
    intro y
    cases y with
    | nil =>
      constructor
      · intro h; simp [ltCharList] at h
      · intro h; exact absurd h (List.Lex.not_nil_right _ _)
    | cons b bs =>
      by_cases hab : a < b
      · simp only [ltCharList, if_pos hab]
        constructor
        · intro _; exact List.Lex.rel hab
        · intro _; trivial
      · by_cases hba : b < a
        · simp only [ltCharList, if_neg hab, if_pos hba]
          constructor
          · intro h; cases h
          · intro h
            cases h with
            | rel h2 => exact absurd h2 hab
            | cons h2 => exact absurd hba (lt_irrefl a)
        · have heq : a = b := le_antisymm (not_lt.mp hba) (not_lt.mp hab)
          subst heq
          simp only [ltCharList, if_neg hab, if_neg hba]
          rw [ih bs]
          constructor
          · intro h; exact List.Lex.cons h
          · intro h
            cases h with
            | rel h2 => exact absurd h2 hab
            | cons h2 => exact h2

/-- The computable `leStr` coincides with Mathlib's `≤` on `String`. -/
theorem leStr_iff (a b : String) : leStr a b ↔ a ≤ b := by
  unfold leStr
  rw [Bool.not_eq_true', ← Bool.not_eq_true, ltCharList_iff]
  rw [show b.data < a.data ↔ b < a from (String.lt_iff_toList_lt).symm]
  exact not_lt

theorem leByRepoName_iff (a b : Item) :
    leByRepoName a b ↔ a.repository_name ≤ b.repository_name :=
  leStr_iff a.repository_name b.repository_name

theorem leByName_iff (a b : RepoConfig) : leByName a b ↔ a.name ≤ b.name :=
  leStr_iff a.name b.name

instance : IsTotal String leStr :=
  ⟨fun a b => by rw [leStr_iff, leStr_iff]; exact le_total a b⟩

instance : IsTrans String leStr :=
  ⟨fun a b c hab hbc => by
    rw [leStr_iff] at hab hbc ⊢; exact le_trans hab hbc⟩

instance : IsTotal Item leByRepoName :=
  ⟨fun a b => by rw [leByRepoName_iff, leByRepoName_iff]; exact le_total _ _⟩

instance : IsTrans Item leByRepoName :=
  ⟨fun a b c hab hbc => by
    rw [leByRepoName_iff] at hab hbc ⊢; exact le_trans hab hbc⟩

instance : IsTotal RepoConfig leByName :=
  ⟨fun a b => by rw [leByName_iff, leByName_iff]; exact le_total _ _⟩

instance : IsTrans RepoConfig leByName :=
  ⟨fun a b c hab hbc => by
    rw [leByName_iff] at hab hbc ⊢; exact le_trans hab hbc⟩

theorem sortStrings_perm (l : List String) : (sortStrings l).Perm l :=
  List.perm_insertionSort leStr l

theorem sortStrings_sorted (l : List String) : (sortStrings l).Sorted (· ≤ ·) :=
  (List.sorted_insertionSort leStr l).imp (fun h => (leStr_iff _ _).mp h)

theorem sortItemsByRepoName_perm (items : List Item) :
    (sortItemsByRepoName items).Perm items :=
  List.perm_insertionSort leByRepoName items

theorem sortItemsByRepoName_sorted (items : List Item) :
    ((sortItemsByRepoName items).map (fun item => item.repository_name)).Sorted (· ≤ ·) :=
  List.Pairwise.map _ (fun _ _ h => (leByRepoName_iff _ _).mp h)
    (List.sorted_insertionSort leByRepoName items)

theorem sortLabelsByName_perm (labels : List RepoConfig) :
    (sortLabelsByName labels).Perm labels :=
  List.perm_insertionSort leByName labels

theorem sortLabelsByName_sorted (labels : List RepoConfig) :
    ((sortLabelsByName labels).map (fun label => label.name)).Sorted (· ≤ ·) :=
  List.Pairwise.map _ (fun _ _ h => (leByName_iff _ _).mp h)
    (List.sorted_insertionSort leByName labels)

/-! ## Helper lemmas: strings and lists -/

theorem mk_data (s : String) : String.mk s.data = s := rfl

theorem str_append_empty (s : String) : s ++ "" = s :=
  String.ext (by simp [String.data_append])

theorem str_append_assoc (a b c : String) : a ++ b ++ c = a ++ (b ++ c) :=
  String.ext (by simp [String.data_append])

theorem intercalate_cons_eq {α : Type} (sep a : List α) (l : List (List α)) :
    List.intercalate sep (a :: l) = a ++ (l.map (fun x => sep ++ x)).flatten := by
  induction l generalizing a with
  | nil => simp [List.intercalate]
  | cons b t ih =>
    have step : List.intercalate sep (a :: b :: t) =
        a ++ (sep ++ List.intercalate sep (b :: t)) := by
      simp [List.intercalate, List.intersperse_cons_cons, List.append_assoc]
    rw [step, ih b]
    simp [List.append_assoc]

/-! ## Helper lemmas: the rendering loop -/

theorem contentGroups_false_eq (labels : List RepoConfig) :
    contentGroups false labels =
      (labels.map (fun label => [""] ++ groupSection label)).flatten := by
  induction labels with
  | nil => rfl
  | cons label rest ih =>
    simp only [contentGroups, ih, groupSection, List.map_cons, List.flatten_cons]
    simp [List.append_assoc, Function.comp_def, groupSection]

/-- The enumerate-based separator logic of the rendering loop produces
exactly the blank-line-separated sections of the specification. -/
theorem contentGroups_true_eq (labels : List RepoConfig) :
    contentGroups true labels = specSections labels := by
  cases labels with
  | nil => rfl
  | cons label rest =>
    simp only [contentGroups, specSections, List.map_cons]
    rw [intercalate_cons_eq, contentGroups_false_eq]
    simp only [groupSection]
    simp [List.append_assoc, List.map_map, Function.comp_def, groupSection]

theorem unknownBlock_eq (unknown_items : List Item) :
    unknownBlock unknown_items = specUnknownSection unknown_items := by
  unfold unknownBlock specUnknownSection
  rcases unknown_items with _ | ⟨item, rest⟩ <;> simp

/-! ## Helper lemmas: the matcher -/

theorem noMatch_cons (label : RepoConfig) (rest : List RepoConfig) (item : Item) :
    noMatch (label :: rest) item =
      (!label.repos.contains item.repository_name && noMatch rest item) := rfl

theorem pushToFirstMatch_none_iff (item : Item) (repos : List RepoConfig) :
    pushToFirstMatch item repos = none ↔ noMatch repos item = true := by
  induction repos with
  | nil => simp [pushToFirstMatch, noMatch]
  | cons label rest ih =>
    rw [noMatch_cons]
    cases h : label.repos.contains item.repository_name with
    | true =>
      simp only [pushToFirstMatch, h]
      simp
    | false =>
      simp only [pushToFirstMatch, h]
      cases hp : pushToFirstMatch item rest with
      | some rest2 =>
        have hnm : noMatch rest item = false := by
          cases hb : noMatch rest item
          · rfl
          · rw [← ih] at hb; rw [hb] at hp; exact Option.noConfusion hp
        simp [hp, hnm]
      | none =>
        have hnm : noMatch rest item = true := ih.mp hp
        simp [hp, hnm]

/-- A successful push changes only the `items` field of one group: the
name/membership skeleton of the group list is unchanged. -/
theorem pushToFirstMatch_skeleton {item : Item} :
    ∀ {repos repos2 : List RepoConfig},
      pushToFirstMatch item repos = some repos2 →
      repos2.map (fun label => (label.name, label.repos)) =
        repos.map (fun label => (label.name, label.repos)) := by
  intro repos
  induction repos with
  | nil => intro repos2 h; simp [pushToFirstMatch] at h
  | cons label rest ih =>
    intro repos2 h
    by_cases hc : label.repos.contains item.repository_name
    · simp only [pushToFirstMatch, if_pos hc, Option.some.injEq] at h
      subst h; simp
    · simp only [pushToFirstMatch, if_neg hc] at h
      cases hp : pushToFirstMatch item rest with
      | some rest2 =>
        rw [hp] at h
        simp only [Option.some.injEq] at h
        subst h
        simp [ih hp]
      | none => rw [hp] at h; simp at h

theorem noMatch_eq_of_skeleton :
    ∀ {repos repos2 : List RepoConfig},
      repos2.map (fun label => (label.name, label.repos)) =
        repos.map (fun label => (label.name, label.repos)) →
      ∀ item, noMatch repos2 item = noMatch repos item := by
  intro repos
  induction repos with
  | nil =>
    intro repos2 h item
    rcases repos2 with _ | ⟨l2, r2⟩
    · rfl
    · simp at h
  | cons label rest ih =>
    intro repos2 h item
    rcases repos2 with _ | ⟨l2, r2⟩
    · simp at h
    · simp only [List.map_cons, List.cons.injEq, Prod.mk.injEq] at h
      obtain ⟨⟨-, hrepos⟩, htail⟩ := h
      rw [noMatch, noMatch, List.all_cons, List.all_cons, hrepos]
      rw [show r2.all (fun l => !l.repos.contains item.repository_name) =
            noMatch r2 item from rfl,
          show rest.all (fun l => !l.repos.contains item.repository_name) =
            noMatch rest item from rfl,
          ih htail item]

theorem specAssign_nil (repos : List RepoConfig) : specAssign [] repos = repos := by
  induction repos with
  | nil => rfl
  | cons label rest ih => simp [specAssign, ih]

/-- Unfolding one input item: `specAssign` routes the head item to the
group `pushToFirstMatch` would push it onto. -/
theorem specAssign_cons (item : Item) (items : List Item) :
    ∀ repos : List RepoConfig,
      specAssign (item :: items) repos =
        match pushToFirstMatch item repos with
        | some repos2 => specAssign items repos2
        | none => specAssign items repos := by
  intro repos
  induction repos generalizing items with
  | nil => simp [specAssign, pushToFirstMatch]
  | cons label rest ih =>
    cases hc : label.repos.contains item.repository_name with
    | true =>
      have hm : item.repository_name ∈ label.repos := by simpa using hc
      simp [specAssign, pushToFirstMatch, hm, List.filter_cons, List.append_assoc]
    | false =>
      have hm : item.repository_name ∉ label.repos := by simpa using hc
      cases hp : pushToFirstMatch item rest with
      | some rest2 =>
        have hrec := ih (items.filter
          (fun i => !label.repos.contains i.repository_name))
        rw [hp] at hrec
        simp at hrec
        simp [specAssign, pushToFirstMatch, hm, hp, List.filter_cons,
          List.append_assoc, hrec]
      | none =>
        have hrec := ih (items.filter
          (fun i => !label.repos.contains i.repository_name))
        rw [hp] at hrec
        simp at hrec
        simp [specAssign, pushToFirstMatch, hm, hp, List.filter_cons,
          List.append_assoc, hrec]

/-- The imperative matching loop computes the specification partition:
first-match groups plus the unknown collection, both in input order. -/
theorem matchLoop_eq (items : List Item) :
    ∀ (repos : List RepoConfig) (unknown_items : List Item),
      matchLoop repos unknown_items items =
        (specAssign items repos, unknown_items ++ specUnknown items repos) := by
  induction items with
  | nil =>
    intro repos unknown_items
    simp [matchLoop, specAssign_nil, specUnknown]
  | cons item rest ih =>
    intro repos unknown_items
    rw [specAssign_cons]
    cases hp : pushToFirstMatch item repos with
    | some repos2 =>
      have hno : noMatch repos item = false := by
        cases hb : noMatch repos item
        · rfl
        · rw [← pushToFirstMatch_none_iff] at hb
          rw [hb] at hp
          exact Option.noConfusion hp
      have hskel := pushToFirstMatch_skeleton hp
      have hnm2 := noMatch_eq_of_skeleton hskel
      rw [show matchLoop repos unknown_items (item :: rest) =
            matchLoop repos2 unknown_items rest by simp [matchLoop, hp]]
      rw [ih repos2 unknown_items]
      rw [show specUnknown (item :: rest) repos =
            specUnknown rest repos by simp [specUnknown, List.filter_cons, hno]]
      rw [show specUnknown rest repos2 = specUnknown rest repos by
            simp only [specUnknown]
            exact List.filter_congr (fun it _ => hnm2 it)]
    | none =>
      have hno : noMatch repos item = true := (pushToFirstMatch_none_iff _ _).mp hp
      rw [show matchLoop repos unknown_items (item :: rest) =
            matchLoop repos (unknown_items ++ [item]) rest by simp [matchLoop, hp]]
      rw [ih repos (unknown_items ++ [item])]
      rw [show specUnknown (item :: rest) repos =
            item :: specUnknown rest repos by simp [specUnknown, List.filter_cons, hno]]
      simp [List.append_assoc]

/-- The function `match_items_with_labels` equals its specification: the first-match
partition together with the unknown items in input order. -/
theorem match_items_with_labels_eq (repos : List RepoConfig) (items : List Item) :
    match_items_with_labels repos items =
      (specAssign items repos, specUnknown items repos) := by
  unfold match_items_with_labels
  rw [matchLoop_eq]
  simp

/-- The function `specAssign` only appends to the `items` field: names, membership
lists, group count and group order are all preserved. -/
theorem specAssign_forall2 (items : List Item) :
    ∀ repos : List RepoConfig,
      List.Forall₂
        (fun g g2 => g2.name = g.name ∧ g2.repos = g.repos ∧
          ∃ appended, g2.items = g.items ++ appended)
        repos (specAssign items repos) := by
  intro repos
  induction repos generalizing items with
  | nil => exact List.Forall₂.nil
  | cons label rest ih =>
    refine List.Forall₂.cons ⟨rfl, rfl, ?_⟩ (ih _)
    exact ⟨_, rfl⟩

theorem specAssign_map_name (items : List Item) :
    ∀ repos : List RepoConfig,
      (specAssign items repos).map (fun label => label.name) =
        repos.map (fun label => label.name) := by
  intro repos
  induction repos generalizing items with
  | nil => rfl
  | cons label rest ih => simp [specAssign, ih]

/-- Every item sitting in a group of the `specAssign` output was either
already in the corresponding input group or is one of the input items. -/
theorem mem_group_of_specAssign (items : List Item) :
    ∀ (repos : List RepoConfig) (g2 : RepoConfig) (item : Item),
      g2 ∈ specAssign items repos → item ∈ g2.items →
      (∃ g ∈ repos, item ∈ g.items) ∨ item ∈ items := by
  intro repos
  induction repos generalizing items with
  | nil => intro g2 item hg; simp [specAssign] at hg
  | cons label rest ih =>
    intro g2 item hg hit
    rcases List.mem_cons.mp hg with hhead | htail
    · subst hhead
      simp only at hit
      rcases List.mem_append.mp hit with hin | hfil
      · exact Or.inl ⟨label, List.mem_cons_self _ _, hin⟩
      · exact Or.inr (List.mem_of_mem_filter hfil)
    · rcases ih _ g2 item htail hit with ⟨g, hgmem, hgin⟩ | hmem
      · exact Or.inl ⟨g, List.mem_cons_of_mem _ hgmem, hgin⟩
      · exact Or.inr (List.mem_of_mem_filter hmem)

/-- With empty input groups, the groups' items and the unknown items
together are a permutation of the input items. -/
theorem specAssign_perm (items : List Item) :
    ∀ repos : List RepoConfig, (∀ g ∈ repos, g.items = []) →
      (((specAssign items repos).map (fun g => g.items)).flatten ++
          specUnknown items repos).Perm items := by
  intro repos
  induction repos generalizing items with
  | nil =>
    intro _
    simp [specAssign, specUnknown, noMatch, List.filter_eq_self.mpr]
  | cons label rest ih =>
    intro hempty
    have hlab : label.items = [] := hempty label (List.mem_cons_self _ _)
    have hrest : ∀ g ∈ rest, g.items = [] :=
      fun g hg => hempty g (List.mem_cons_of_mem _ hg)
    simp only [specAssign, List.map_cons, List.flatten_cons, hlab, List.nil_append]
    have hsplit : specUnknown items (label :: rest) =
        specUnknown (items.filter (fun i => !label.repos.contains i.repository_name))
          rest := by
      simp only [specUnknown, List.filter_filter]
      apply List.filter_congr
      intro it _
      rw [noMatch_cons]
      cases h : label.repos.contains it.repository_name <;> simp [noMatch]
    rw [hsplit]
    have hperm := ih (items.filter (fun i => !label.repos.contains i.repository_name))
      hrest
    have h2 := List.Perm.append_left
      (items.filter (fun i => label.repos.contains i.repository_name)) hperm
    have h3 := h2.trans
      (List.filter_append_perm (fun i => label.repos.contains i.repository_name) items)
    simpa [List.append_assoc] using h3

/-! ## Helper lemmas: URL splitting and joining -/

theorem mk_nil : String.mk [] = "" := rfl

theorem slashSegments_data (l : List String) :
    (slashSegments l).data = (l.map (fun s => '/' :: s.data)).flatten := by
  induction l with
  | nil => rfl
  | cons s rest ih =>
    simp only [slashSegments, String.data_append, ih, List.map_cons,
      List.flatten_cons]
    simp [List.append_assoc]

theorem render_data (u : PullRequestUrl) :
    u.render.data = List.intercalate ['/']
      ("https:".data :: [] :: u.host.data :: u.pathSegments.map String.data) := by
  rw [intercalate_cons_eq]
  simp only [List.map_cons, List.flatten_cons, List.map_map]
  unfold PullRequestUrl.render
  rw [show ("https://" : String) = "https:" ++ "/" ++ "/" from rfl]
  simp [String.data_append, slashSegments_data, Function.comp_def,
    List.append_assoc]

theorem pathString_data (u : PullRequestUrl) :
    u.pathString.data =
      List.intercalate ['/'] ([] :: u.pathSegments.map String.data) := by
  rw [intercalate_cons_eq]
  unfold PullRequestUrl.pathString
  simp [slashSegments_data, List.map_map, Function.comp_def]

/-- Splitting the rendered URL on `/` recovers the scheme part, an empty
part (from `//`), the host, and the path segments. -/
theorem splitSlash_render (u : PullRequestUrl) (hh : '/' ∉ u.host.data)
    (hs : ∀ s ∈ u.pathSegments, '/' ∉ s.data) :
    splitSlash u.render = ["https:", "", u.host] ++ u.pathSegments := by
  unfold splitSlash
  rw [render_data, List.splitOn_intercalate]
  · simp [mk_data, mk_nil, List.map_map, Function.comp_def]
  · intro l hl
    rcases List.mem_cons.mp hl with rfl | hl
    · decide
    rcases List.mem_cons.mp hl with rfl | hl
    · simp
    rcases List.mem_cons.mp hl with rfl | hl
    · exact hh
    obtain ⟨s, hsmem, rfl⟩ := List.mem_map.mp hl
    exact hs s hsmem
  · exact List.cons_ne_nil _ _

/-- Splitting the URL path on `/` yields one empty part (the leading
slash) followed by the path segments. -/
theorem splitSlash_pathString (u : PullRequestUrl)
    (hs : ∀ s ∈ u.pathSegments, '/' ∉ s.data) :
    splitSlash u.pathString = "" :: u.pathSegments := by
  unfold splitSlash
  rw [pathString_data, List.splitOn_intercalate]
  · simp [mk_data, mk_nil, List.map_map, Function.comp_def]
  · intro l hl
    rcases List.mem_cons.mp hl with rfl | hl
    · simp
    obtain ⟨s, hsmem, rfl⟩ := List.mem_map.mp hl
    exact hs s hsmem
  · exact List.cons_ne_nil _ _

theorem joinSlash_cons (s : String) (l : List String) :
    joinSlash (s :: l) = s ++ slashSegments l := by
  induction l generalizing s with
  | nil => simp [joinSlash, slashSegments, str_append_empty]
  | cons t rest ih =>
    show joinSlash (s :: t :: rest) = _
    simp only [joinSlash]
    rw [ih t]
    simp only [slashSegments]
    simp [str_append_assoc]

/-- Joining the split parts of a URL whose last two path segments were
popped yields the rendered URL with those segments removed. -/
theorem joinSlash_url (host : String) (segs : List String) :
    joinSlash ("https:" :: "" :: host :: segs) =
      PullRequestUrl.render ⟨host, segs⟩ := by
  rw [joinSlash_cons]
  unfold PullRequestUrl.render
  rw [show ("https://" : String) = "https:" ++ "/" ++ "/" from rfl]
  apply String.ext
  simp only [slashSegments, String.data_append, List.append_assoc]
  simp

theorem length_pos_iff_ne_empty (s : String) : 0 < s.length ↔ s ≠ "" := by
  rw [show s.length = s.data.length from rfl, List.length_pos]
  constructor
  · intro h heq
    exact h (by rw [heq])
  · intro h hdata
    exact h (String.ext (show s.data = String.data "" from hdata))

/-- The three `Item` fields derived from the URL inside `get_user_items`,
expressed against the structural URL model: the produced
`repository_name` is the first two non-empty path segments joined by
`/`, and the produced `repository_url` is the URL re-rendered with its
last two path segments removed. -/
theorem itemFromIssue_spec (issue : Issue) (h : UrlWellFormed issue.html_url) :
    (itemFromIssue issue).issue_url = issue.html_url.render ∧
    (itemFromIssue issue).repository_name =
      (issue.html_url.pathSegments.filter (fun s => s ≠ ""))[0]! ++ "/" ++
        (issue.html_url.pathSegments.filter (fun s => s ≠ ""))[1]! ∧
    (itemFromIssue issue).repository_url =
      PullRequestUrl.render
        ⟨issue.html_url.host, issue.html_url.pathSegments.dropLast.dropLast⟩ := by
  obtain ⟨hh, hs, hlen⟩ := h
  have hfilter : ((splitSlash issue.html_url.pathString).filter
      (fun x => 0 < x.length)) =
      issue.html_url.pathSegments.filter (fun s => s ≠ "") := by
    rw [splitSlash_pathString _ hs, List.filter_cons]
    simp only [decide_eq_true_eq, lt_irrefl, String.length, List.length_nil]
    rw [if_neg (by simp)]
    apply List.filter_congr
    intro s _
    exact decide_eq_decide.mpr (length_pos_iff_ne_empty s)
  have hlen2 : 2 ≤ issue.html_url.pathSegments.length :=
    le_trans hlen (List.length_filter_le _ _)
  have h1 : issue.html_url.pathSegments ≠ [] := by
    intro hemp; rw [hemp] at hlen2; simp at hlen2
  have h2 : issue.html_url.pathSegments.dropLast ≠ [] := by
    intro hemp
    have hl := List.length_dropLast issue.html_url.pathSegments
    rw [hemp] at hl
    simp at hl
    omega
  have hname : (itemFromIssue issue).repository_name =
      ((splitSlash issue.html_url.pathString).filter
        (fun x => 0 < x.length))[0]! ++ "/" ++
      ((splitSlash issue.html_url.pathString).filter
        (fun x => 0 < x.length))[1]! := rfl
  have hurl : (itemFromIssue issue).repository_url =
      joinSlash ((splitSlash issue.html_url.render).dropLast.dropLast) := rfl
  refine ⟨rfl, ?_, ?_⟩
  · rw [hname, hfilter]
  · rw [hurl, splitSlash_render _ hh hs,
      List.dropLast_append_of_ne_nil _ h1,
      List.dropLast_append_of_ne_nil _ h2]
    rw [show (["https:", "", issue.html_url.host] ++
          issue.html_url.pathSegments.dropLast.dropLast) =
        ("https:" :: "" :: issue.html_url.host ::
          issue.html_url.pathSegments.dropLast.dropLast) from rfl]
    exact joinSlash_url _ _

/-! ## Helper lemmas: reference extraction -/

theorem extract_definitions_unfold (items : List Item) :
    extract_definitions items =
      sortStrings (items.map userLine).dedup ++
        sortStrings (items.map repoLine).dedup := rfl

theorem mem_sortStrings_dedup (l : List String) (s : String) :
    s ∈ sortStrings l.dedup ↔ s ∈ l := by
  rw [(sortStrings_perm l.dedup).mem_iff, List.mem_dedup]

theorem nodup_sortStrings_dedup (l : List String) : (sortStrings l.dedup).Nodup :=
  ((sortStrings_perm l.dedup).nodup_iff).mpr (List.nodup_dedup l)

theorem count_sortStrings_dedup (l : List String) (s : String) :
    (sortStrings l.dedup).count s = if s ∈ l then 1 else 0 := by
  by_cases h : s ∈ l
  · rw [if_pos h]
    exact List.count_eq_one_of_mem (nodup_sortStrings_dedup l)
      ((mem_sortStrings_dedup l s).mpr h)
  · rw [if_neg h]
    exact List.count_eq_zero_of_not_mem
      (fun hm => h ((mem_sortStrings_dedup l s).mp hm))

theorem mem_pipelineItems_iff (config : FileConfig) (fetched : List Item)
    (item : Item) :
    item ∈ pipelineItems config fetched ↔
      item ∈ fetched ∧ item.repository_name ∉ config.exclude := by
  unfold pipelineItems
  rw [(sortItemsByRepoName_perm _).mem_iff, List.mem_filter]
  simp

/-! ## Claim theorems -/

/-- C9: `format_item` is a pure function that returns exactly the bullet
template `- [<repository_name>] [#<issue_number>](<issue_url>)
<issue_title> ([@<login>])` built from the item's fields and the given
login.  Purity is definitional in the embedding; the equation checks the
template byte for byte. -/
theorem format_item_template (user_login : String) (item : Item) :
    format_item user_login item =
      "- [" ++ item.repository_name ++ "] [#" ++ item.issue_number ++ "](" ++
        item.issue_url ++ ") " ++ item.issue_title ++ " ([@" ++
        user_login ++ "])" := rfl

/-- Concrete evaluation of the bullet template at the fixture of the
Rust test `it_formats_item`. -/
theorem format_item_concrete_eval :
    format_item "mansona" (c4Items[0]!) =
      "- [atom/keyboard-layout] [#63](https://github.com/atom/keyboard-layout/pull/63) Update nan ([@mansona])" := by
  decide

/-- C3: the document of the config-loaded path is exactly: the header
lines joined by newline, then (directly concatenated) the joined content
lines consisting of the non-empty group sections separated by one blank
line with each section being `## <name>`, blank, bullets, then (if the
unknown collection is non-empty) a blank separator line, `## Unknown`, a
blank line and the unknown bullets, then the two-newline `BREAK_LINE`,
then the reference definitions joined by newline. -/
theorem mainOk_document_structure (config : FileConfig) (fetched : List Item) :
    mainOkDocument config fetched = specOkDocument config fetched := by
  simp only [mainOkDocument, specOkDocument, renderContent]
  rw [contentGroups_true_eq, unknownBlock_eq]
  rfl

/-- C1 counterexample: with the configured label order `B, A` (both
groups non-empty), the groups render in the order `A, B` – the
alphabetical order produced by `repos.sort_by_key(...)` in `main`, not
the configured order. -/
theorem rendered_order_not_configured_order :
    (renderedGroups c1Config c1Items).map (fun g => g.name) = ["A", "B"] ∧
    c1Config.labels.map (fun g => g.name) = ["B", "A"] ∧
    (["A", "B"] : List String) ≠ ["B", "A"] := by
  decide

/-- C1 (amended): the label groups are rendered in ascending
lexicographic order of group name (the configured sequence stably sorted
by name by `main`), and a group with zero items produces no heading and
no other output: the group part of the content is exactly the
blank-line-separated sections of the groups with at least one item. -/
theorem rendered_groups_sorted_by_name (config : FileConfig) (fetched : List Item) :
    contentGroups true
        ((pipelineGroups config fetched).filter (fun l => 0 < l.items.length)) =
      List.intercalate [""] ((renderedGroups config fetched).map groupSection) ∧
    ((renderedGroups config fetched).map (fun g => g.name)).Sorted (· ≤ ·) ∧
    (pipelineGroups config fetched).map (fun g => g.name) =
      (sortLabelsByName config.labels).map (fun g => g.name) := by
  have hnames : (pipelineGroups config fetched).map (fun g => g.name) =
      (sortLabelsByName config.labels).map (fun g => g.name) := by
    unfold pipelineGroups
    rw [match_items_with_labels_eq]
    exact specAssign_map_name _ _
  refine ⟨contentGroups_true_eq _, ?_, hnames⟩
  have hss : ((renderedGroups config fetched).map (fun g => g.name)).Sublist
      ((pipelineGroups config fetched).map (fun g => g.name)) :=
    (List.filter_sublist _).map _
  have hsorted : ((pipelineGroups config fetched).map (fun g => g.name)).Sorted
      (· ≤ ·) := by
    rw [hnames]; exact sortLabelsByName_sorted _
  exact List.Pairwise.sublist hss hsorted

/-- C2 counterexample: two items with the same login `dup` (one distinct
login) and the same repository (one distinct repository, same URL) yield
three reference lines, not two: the dedup key is the whole formatted
line, not the login. -/
theorem dedup_not_keyed_by_login :
    c2ItemA.user_login = c2ItemB.user_login ∧
    c2ItemA.repository_name = c2ItemB.repository_name ∧
    c2ItemA.repository_url = c2ItemB.repository_url ∧
    ([c2ItemA, c2ItemB].map (fun i => i.user_login)).dedup.length = 1 ∧
    ([c2ItemA, c2ItemB].map (fun i => i.repository_name)).dedup.length = 1 ∧
    (extract_definitions [c2ItemA, c2ItemB]).length = 3 := by
  decide

/-- C2 (amended): `extract_definitions` deduplicates keyed by the full
formatted line: each distinct user line `[@login]: user_url` (the
(login, url) pair) contributes exactly one output line, and likewise for
each distinct repository line; a login appearing with two different URLs
contributes one line per distinct URL, deterministically. -/
theorem extract_definitions_dedup_by_line (items : List Item) (s : String) :
    (extract_definitions items).count s =
      (if s ∈ items.map userLine then 1 else 0) +
        (if s ∈ items.map repoLine then 1 else 0) := by
  rw [extract_definitions_unfold, List.count_append,
    count_sortStrings_dedup, count_sortStrings_dedup]

/-- C8: `extract_definitions` is deterministic (definitional in the pure
embedding, stated as the trivial last conjunct) and its output is the
concatenation of the deduplicated user lines sorted ascending by the full
formatted string followed by the deduplicated repository lines sorted
ascending by the full formatted string. -/
theorem extract_definitions_sorted_blocks (items : List Item) :
    ∃ userBlock repoBlock : List String,
      extract_definitions items = userBlock ++ repoBlock ∧
      userBlock.Sorted (· ≤ ·) ∧ repoBlock.Sorted (· ≤ ·) ∧
      userBlock.Nodup ∧ repoBlock.Nodup ∧
      (∀ s, s ∈ userBlock ↔ ∃ item ∈ items, s = userLine item) ∧
      (∀ s, s ∈ repoBlock ↔ ∃ item ∈ items, s = repoLine item) ∧
      extract_definitions items = extract_definitions items := by
  refine ⟨sortStrings (items.map userLine).dedup,
    sortStrings (items.map repoLine).dedup, rfl,
    sortStrings_sorted _, sortStrings_sorted _,
    nodup_sortStrings_dedup _, nodup_sortStrings_dedup _, ?_, ?_, rfl⟩
  · intro s
    rw [mem_sortStrings_dedup, List.mem_map]
    constructor
    · rintro ⟨item, hmem, rfl⟩; exact ⟨item, hmem, rfl⟩
    · rintro ⟨item, hmem, rfl⟩; exact ⟨item, hmem, rfl⟩
  · intro s
    rw [mem_sortStrings_dedup, List.mem_map]
    constructor
    · rintro ⟨item, hmem, rfl⟩; exact ⟨item, hmem, rfl⟩
    · rintro ⟨item, hmem, rfl⟩; exact ⟨item, hmem, rfl⟩

/-- C7: in the config-failure path the written document is exactly flat
mode: the bullet lines of all fetched items stably sorted ascending by
`repository_name` (and nothing else: every content line is a bullet
starting with `- [`, no heading is emitted), followed by the same break
sequence and the same reference-definition block computed from the same
sorted items; the fetched item list is used unchanged (the sorted list is
a permutation of it). -/
theorem flat_mode_document_structure (fetched : List Item) :
    mainErrDocument fetched = specFlatDocument fetched ∧
    (∀ line ∈ format_items (sortItemsByRepoName fetched),
        ∃ rest, line = "- [" ++ rest) ∧
    ((sortItemsByRepoName fetched).map (fun item => item.repository_name)).Sorted
      (· ≤ ·) ∧
    (sortItemsByRepoName fetched).Perm fetched := by
  refine ⟨rfl, ?_, sortItemsByRepoName_sorted _, sortItemsByRepoName_perm _⟩
  intro line hline
  obtain ⟨item, _, rfl⟩ := List.mem_map.mp hline
  refine ⟨item.repository_name ++ ("] [#" ++ (item.issue_number ++ ("](" ++
    (item.issue_url ++ (") " ++ (item.issue_title ++ (" ([@" ++
    (item.user_login ++ "])")))))))), ?_⟩
  simp [format_item, str_append_assoc]

/-- C4: `match_items_with_labels` computes the first-match partition:
the populated groups equal `specAssign` (each group receives, in input
order, exactly the items whose repository its membership list contains
and that no earlier group claimed), the unknown list equals the items
matching no group in input order, and – when the groups start with empty
item lists – the concatenation of all groups' items with the unknown
list is a permutation of the input items. -/
theorem match_partition_spec (repos : List RepoConfig) (items : List Item)
    (hempty : ∀ g ∈ repos, g.items = []) :
    (match_items_with_labels repos items).1 = specAssign items repos ∧
    (match_items_with_labels repos items).2 = specUnknown items repos ∧
    ((((match_items_with_labels repos items).1).map (fun g => g.items)).flatten ++
        (match_items_with_labels repos items).2).Perm items := by
  rw [match_items_with_labels_eq]
  exact ⟨rfl, rfl, specAssign_perm items repos hempty⟩

/-- C4 witness: the partition property evaluated at the fixture of the
Rust test `it_matches_items_with_labels`. -/
theorem match_partition_spec_witness :
    (match_items_with_labels c4Repos c4Items).1 = specAssign c4Items c4Repos ∧
    (match_items_with_labels c4Repos c4Items).2 = specUnknown c4Items c4Repos ∧
    ((((match_items_with_labels c4Repos c4Items).1).map
          (fun g => g.items)).flatten ++
        (match_items_with_labels c4Repos c4Items).2).Perm c4Items :=
  match_partition_spec c4Repos c4Items (by decide)

/-- C10: `match_items_with_labels` only appends to the `items` fields:
the output group list corresponds one to one, in order, with the input
group list, with identical `name` and `repos` fields and with each output
item list equal to the input item list plus a (possibly empty) appended
suffix; in particular the number and order of groups is unchanged.  The
input item list itself is untouched (the embedding is pure, and the loop
only reads it). -/
theorem match_frame_only_items_appended (repos : List RepoConfig)
    (items : List Item) :
    (match_items_with_labels repos items).1.length = repos.length ∧
    List.Forall₂
      (fun g g2 => g2.name = g.name ∧ g2.repos = g.repos ∧
        ∃ appended, g2.items = g.items ++ appended)
      repos (match_items_with_labels repos items).1 := by
  rw [match_items_with_labels_eq]
  exact ⟨(specAssign_forall2 items repos).length_eq.symm,
    specAssign_forall2 items repos⟩

/-- C6: an item whose `repository_name` is in the configured exclusion
set appears in no group of the matcher output and not in the unknown
list, and every reference-definition line of the output comes from some
fetched item whose repository is not excluded. -/
theorem excluded_items_absent (config : FileConfig) (fetched : List Item)
    (item : Item)
    (hempty : ∀ g ∈ config.labels, g.items = [])
    (hexc : item.repository_name ∈ config.exclude) :
    (∀ g ∈ pipelineGroups config fetched, item ∉ g.items) ∧
    item ∉ pipelineUnknown config fetched ∧
    (∀ line ∈ extract_definitions (pipelineItems config fetched),
        ∃ src, src ∈ fetched ∧ src.repository_name ∉ config.exclude ∧
          (line = userLine src ∨ line = repoLine src)) := by
  have hnotpipe : item ∉ pipelineItems config fetched := by
    intro hmem
    exact ((mem_pipelineItems_iff config fetched item).mp hmem).2 hexc
  have hemptysorted : ∀ g ∈ sortLabelsByName config.labels, g.items = [] :=
    fun g hg => hempty g ((sortLabelsByName_perm config.labels).subset hg)
  refine ⟨?_, ?_, ?_⟩
  · intro g hg hitem
    rw [show pipelineGroups config fetched =
        specAssign (pipelineItems config fetched)
          (sortLabelsByName config.labels) by
      unfold pipelineGroups; rw [match_items_with_labels_eq]] at hg
    rcases mem_group_of_specAssign _ _ g item hg hitem with ⟨g0, hg0, hin⟩ | hin
    · rw [hemptysorted g0 hg0] at hin
      exact List.not_mem_nil item hin
    · exact hnotpipe hin
  · intro hmem
    rw [show pipelineUnknown config fetched =
        specUnknown (pipelineItems config fetched)
          (sortLabelsByName config.labels) by
      unfold pipelineUnknown; rw [match_items_with_labels_eq]] at hmem
    exact hnotpipe (List.mem_of_mem_filter hmem)
  · intro line hline
    rw [extract_definitions_unfold] at hline
    rcases List.mem_append.mp hline with h | h
    · obtain ⟨src, hmem, rfl⟩ :=
        List.mem_map.mp ((mem_sortStrings_dedup _ _).mp h)
      have := (mem_pipelineItems_iff config fetched src).mp hmem
      exact ⟨src, this.1, this.2, Or.inl rfl⟩
    · obtain ⟨src, hmem, rfl⟩ :=
        List.mem_map.mp ((mem_sortStrings_dedup _ _).mp h)
      have := (mem_pipelineItems_iff config fetched src).mp hmem
      exact ⟨src, this.1, this.2, Or.inr rfl⟩

/-- C6 witness: the exclusion property evaluated at a concrete
configuration that excludes `x/y` and a fetched list containing an
`x/y` item. -/
theorem excluded_items_absent_witness :
    (∀ g ∈ pipelineGroups c6Config c6Fetched, c6Item ∉ g.items) ∧
    c6Item ∉ pipelineUnknown c6Config c6Fetched ∧
    (∀ line ∈ extract_definitions (pipelineItems c6Config c6Fetched),
        ∃ src, src ∈ c6Fetched ∧ src.repository_name ∉ c6Config.exclude ∧
          (line = userLine src ∨ line = repoLine src)) :=
  excluded_items_absent c6Config c6Fetched c6Item (by decide) (by decide)

/-- C5: every `Item` the fetch pipeline produces from a well-formed
pull-request URL has `repository_name` equal to the first two non-empty
path segments of `issue_url`'s path component joined by `/`, and
`repository_url` equal to `issue_url` with its last two path segments
removed (re-rendered without them). -/
theorem fetched_item_url_invariants (issues : List Issue)
    (hwf : ∀ issue ∈ issues, UrlWellFormed issue.html_url) :
    ∀ item ∈ get_user_items issues, ∃ issue, issue ∈ issues ∧
      item.issue_url = issue.html_url.render ∧
      item.repository_name =
        (issue.html_url.pathSegments.filter (fun s => s ≠ ""))[0]! ++ "/" ++
          (issue.html_url.pathSegments.filter (fun s => s ≠ ""))[1]! ∧
      item.repository_url =
        PullRequestUrl.render
          ⟨issue.html_url.host, issue.html_url.pathSegments.dropLast.dropLast⟩ := by
  intro item hitem
  obtain ⟨issue, hmem, rfl⟩ := List.mem_map.mp hitem
  obtain ⟨h1, h2, h3⟩ := itemFromIssue_spec issue (hwf issue hmem)
  exact ⟨issue, hmem, h1, h2, h3⟩

/-- C5 witness: the URL invariants evaluated at the item produced from
the concrete pull-request URL
`https://github.com/atom/keyboard-layout/pull/63`. -/
theorem fetched_item_url_invariants_witness :
    ∃ issue, issue ∈ [c5Issue] ∧
      (itemFromIssue c5Issue).issue_url = issue.html_url.render ∧
      (itemFromIssue c5Issue).repository_name =
        (issue.html_url.pathSegments.filter (fun s => s ≠ ""))[0]! ++ "/" ++
          (issue.html_url.pathSegments.filter (fun s => s ≠ ""))[1]! ∧
      (itemFromIssue c5Issue).repository_url =
        PullRequestUrl.render
          ⟨issue.html_url.host, issue.html_url.pathSegments.dropLast.dropLast⟩ :=
  fetched_item_url_invariants [c5Issue] (by decide) (itemFromIssue c5Issue)
    (by simp [get_user_items])
